import Mathlib

/- Shallow embedding of the conversational-ai-cloudbase LLM cloud functions
   (llm-tools/index.mjs, llm-context-manager, llm-fast-reply, llm-rag):
   per-session context management with bounded history, the SSE streaming
   relay with mid-stream tool-invocation handling, retrieval augmentation,
   and the progressive-response guard.  External collaborators (the OpenAI
   transport, JSON serialization, the embedding/similarity math and the mock
   weather data) are modelled as opaque parameter functions, matching the
   spec's scope, which treats them as pluggable collaborators. -/

structure ToolCallData where
  id : String
  ctype : String
  fnName : String
  fnArgs : String
deriving DecidableEq

structure Message where
  role : String
  content : Option String
  toolCalls : List ToolCallData
  toolCallId : Option String
deriving DecidableEq

structure ChatContext where
  messages : List Message
  createdAt : Nat
  lastAccessedAt : Nat
deriving DecidableEq

structure ContextManager where
  contexts : String → Option ChatContext

/-- JS truthiness of an optional string: `undefined`, `null` and `""` are
falsy, which is how `if (!taskId)` behaves in the source. -/
def truthy : Option String → Bool
  | none => false
  | some s => !(s == "")

def systemSeed (prompt : String) : Message := ⟨"system", some prompt, [], none⟩

def freshChatContext (prompt : String) (now : Nat) : ChatContext :=
  ⟨[systemSeed prompt], now, now⟩

/-- `ContextManager.getContext`: with a falsy task id it returns a fresh
seeded context and does not touch the store; otherwise it registers the
session if absent and refreshes `lastAccessedAt`. -/
def getContext (prompt : String) (now : Nat) (cm : ContextManager)
    (taskId : Option String) : ChatContext × ContextManager :=
  match taskId with
  | none => (freshChatContext prompt now, cm)
  | some tid =>
      if tid = "" then (freshChatContext prompt now, cm)
      else
        match cm.contexts tid with
        | none =>
            let c := freshChatContext prompt now
            (c, ⟨fun k => if k = tid then some c else cm.contexts k⟩)
        | some c0 =>
            let c : ChatContext := { c0 with lastAccessedAt := now }
            (c, ⟨fun k => if k = tid then some c else cm.contexts k⟩)

/-- JS `arr.slice(-k)` for a natural `k`.  Note the JS quirk that
`slice(-0)` is `slice(0)`, i.e. the whole array. -/
def jsSliceNeg (k : Nat) (l : List α) : List α :=
  if k = 0 then l else l.drop (l.length - k)

/-- The push-then-trim step of `ContextManager.addMessage` on a single
session history: push the message, and if the length exceeds
`MAX_CONTEXT_MESSAGES + 1` keep `[messages[0]] ++ messages.slice(-MAX)`. -/
def pushAndTrim (maxM : Nat) (msgs : List Message) (m : Message) : List Message :=
  let pushed := msgs ++ [m]
  if maxM + 1 < pushed.length then
    match pushed with
    | [] => []
    | sys :: rest => sys :: jsSliceNeg maxM (sys :: rest)
  else pushed

/-- `ContextManager.addMessage`: no-op for a falsy task id, otherwise
resolve the session through `getContext` and push-and-trim its history. -/
def addMessage (prompt : String) (maxM now : Nat) (cm : ContextManager)
    (taskId : Option String) (m : Message) : ContextManager :=
  match taskId with
  | none => cm
  | some tid =>
      if tid = "" then cm
      else
        let gc := getContext prompt now cm taskId
        let c' : ChatContext := { gc.1 with messages := pushAndTrim maxM gc.1.messages m }
        ⟨fun k => if k = tid then some c' else gc.2.contexts k⟩

/-- The last `n` elements of a list. -/
def lastN (n : Nat) (l : List α) : List α := l.drop (l.length - n)

theorem pushAndTrim_cons (maxM : Nat) (hm : 1 ≤ maxM) (sys m : Message)
    (tail : List Message) (hle : tail.length ≤ maxM) :
    pushAndTrim maxM (sys :: tail) m =
      if tail.length = maxM then sys :: ((tail ++ [m]).drop 1)
      else sys :: (tail ++ [m]) := by
  have hL : (sys :: tail ++ [m]).length = tail.length + 2 := by
    simp only [List.length_cons, List.length_append, List.length_nil]
  by_cases h : tail.length = maxM
  · rw [if_pos h]
    simp only [pushAndTrim]
    rw [if_pos (by rw [hL]; omega)]
    show sys :: jsSliceNeg maxM (sys :: tail ++ [m]) = _
    unfold jsSliceNeg
    rw [if_neg (by omega)]
    have hidx : (sys :: tail ++ [m]).length - maxM = 2 := by rw [hL]; omega
    rw [hidx]
    rfl
  · rw [if_neg h]
    simp only [pushAndTrim]
    rw [if_neg (by rw [hL]; omega)]
    rfl

theorem foldl_pushAndTrim (maxM : Nat) (hm : 1 ≤ maxM) (sys : Message) :
    ∀ (seq tail : List Message), tail.length ≤ maxM →
      seq.foldl (pushAndTrim maxM) (sys :: tail) = sys :: lastN maxM (tail ++ seq) := by
  intro seq
  induction seq with
  | nil =>
      intro tail hle
      simp only [List.foldl_nil, List.append_nil, lastN]
      rw [Nat.sub_eq_zero_of_le hle, List.drop_zero]
  | cons m rest ih =>
      intro tail hle
      rw [List.foldl_cons, pushAndTrim_cons maxM hm sys m tail hle]
      by_cases h : tail.length = maxM
      · rw [if_pos h]
        have hlen : ((tail ++ [m]).drop 1).length ≤ maxM := by
          simp only [List.length_drop, List.length_append, List.length_nil,
            List.length_cons]
          omega
        rw [ih ((tail ++ [m]).drop 1) hlen]
        congr 1
        cases tail with
        | nil => exact absurd h.symm (by simpa using Nat.ne_of_gt hm)
        | cons t0 ts =>
          have h4 : ts.length + 1 = maxM := by simpa using h
          have h1 : (List.drop 1 (t0 :: ts ++ [m])) ++ rest = (ts ++ [m]) ++ rest := rfl
          rw [h1]
          have h8 : (ts ++ [m]) ++ rest = ts ++ m :: rest := by simp
          rw [h8]
          unfold lastN
          have hidx1 : (ts ++ m :: rest).length - maxM = rest.length := by
            simp only [List.length_append, List.length_cons]
            omega
          have hidx2 : ((t0 :: ts) ++ m :: rest).length - maxM = rest.length + 1 := by
            simp only [List.length_append, List.length_cons]
            omega
          rw [hidx1, hidx2]
          rfl
      · rw [if_neg h]
        have hlen : (tail ++ [m]).length ≤ maxM := by
          simp only [List.length_append, List.length_singleton]
          omega
        rw [ih (tail ++ [m]) hlen]
        congr 2
        simp

theorem addMessage_lookup (prompt : String) (maxM now : Nat) (tid : String)
    (htid : tid ≠ "") (cm : ContextManager) (c : ChatContext)
    (hc : cm.contexts tid = some c) (m : Message) :
    (addMessage prompt maxM now cm (some tid) m).contexts tid
      = some ⟨pushAndTrim maxM c.messages m, c.createdAt, now⟩ := by
  unfold addMessage getContext
  simp only [if_neg htid, hc]
  simp

theorem addMessage_foldl_lookup (prompt : String) (maxM now : Nat) (tid : String)
    (htid : tid ≠ "") :
    ∀ (seq : List Message) (cm : ContextManager) (msgs : List Message) (ca la : Nat),
      cm.contexts tid = some ⟨msgs, ca, la⟩ →
      ∃ la', (seq.foldl (fun cm m => addMessage prompt maxM now cm (some tid) m) cm).contexts tid
        = some ⟨seq.foldl (pushAndTrim maxM) msgs, ca, la'⟩ := by
  intro seq
  induction seq with
  | nil =>
      intro cm msgs ca la hc
      exact ⟨la, by simpa using hc⟩
  | cons m rest ih =>
      intro cm msgs ca la hc
      have h1 := addMessage_lookup prompt maxM now tid htid cm ⟨msgs, ca, la⟩ hc m
      obtain ⟨la', h2⟩ := ih (addMessage prompt maxM now cm (some tid) m)
        (pushAndTrim maxM msgs m) ca now h1
      exact ⟨la', by simpa using h2⟩

/-- Claim C2 (amended): for every session and every sequence of `addMessage`
calls, provided the configured `maxMessages` is at least 1, the history
length never exceeds `maxMessages + 1` and index 0 keeps the pinned
instruction message; when appends push past the bound the resulting history
is exactly the instruction message followed by the most recent `maxMessages`
messages, so only the oldest non-instruction messages are evicted and the
instruction message is never evicted by trimming.  (At `maxMessages = 0` the
JS `slice(-0)` quirk breaks the bound; see the counterexample below.) -/
theorem addMessage_history_bound_and_pin (prompt : String) (maxM now : Nat)
    (tid : String) (sys : Message) (tail seq : List Message)
    (cm : ContextManager) (ca la : Nat)
    (hm : 1 ≤ maxM) (htid : tid ≠ "")
    (hc : cm.contexts tid = some ⟨sys :: tail, ca, la⟩)
    (hlen : tail.length ≤ maxM) :
    ∃ c, (seq.foldl (fun cm m => addMessage prompt maxM now cm (some tid) m) cm).contexts tid
        = some c
      ∧ c.messages = sys :: lastN maxM (tail ++ seq)
      ∧ c.messages.length ≤ maxM + 1
      ∧ c.messages.head? = some sys := by
  obtain ⟨la', h⟩ := addMessage_foldl_lookup prompt maxM now tid htid seq cm
    (sys :: tail) ca la hc
  refine ⟨_, h, ?_, ?_, ?_⟩
  · simpa using foldl_pushAndTrim maxM hm sys seq tail hlen
  · rw [foldl_pushAndTrim maxM hm sys seq tail hlen]
    simp only [List.length_cons, lastN, List.length_drop]
    omega
  · rw [foldl_pushAndTrim maxM hm sys seq tail hlen]
    rfl

def wSys : Message := ⟨"system", some "prompt", [], none⟩

def wUser (s : String) : Message := ⟨"user", some s, [], none⟩

def wcm : ContextManager := ⟨fun k => if k = "s" then some ⟨[wSys], 0, 0⟩ else none⟩

/-- Concrete instantiation of claim C2's theorem: three appends against a
bound of two evict only the oldest non-instruction message. -/
theorem addMessage_history_bound_and_pin_witness :
    ∃ c, (([wUser "a", wUser "b", wUser "c"].foldl
          (fun cm m => addMessage "p" 2 7 cm (some "s") m) wcm).contexts "s") = some c
      ∧ c.messages = wSys :: lastN 2 ([] ++ [wUser "a", wUser "b", wUser "c"])
      ∧ c.messages.length ≤ 2 + 1
      ∧ c.messages.head? = some wSys :=
  addMessage_history_bound_and_pin "p" 2 7 "s" wSys [] [wUser "a", wUser "b", wUser "c"]
    wcm 0 0 (by decide) (by decide) rfl (by decide)

/-- Counterexample to claim C2 as stated: with `maxMessages = 0` a single
append to a freshly seeded session yields a history of length 3 — the JS
`messages.slice(-(0))` in the trim step is `slice(0)`, the whole array, so
the trim produces `[messages[0], ...messages]`, exceeding the claimed bound
`maxMessages + 1 = 1` and duplicating the instruction message (so the
history is not the pinned instruction followed by the most recent 0
appended messages either). -/
theorem addMessage_zero_bound_overflow_cex :
    ((addMessage "p" 0 7 wcm (some "s") (wUser "a")).contexts "s").map
        ChatContext.messages = some [wSys, wSys, wUser "a"]
    ∧ ((addMessage "p" 0 7 wcm (some "s") (wUser "a")).contexts "s").map
        (fun c => c.messages.length) = some 3 :=
  ⟨by decide, by decide⟩

/-- Claim C8: a session resolved with no identifier is a fresh object seeded
with the instruction message and is never registered: the store is unchanged
by the resolve, every later resolve with any identifier behaves as if the
anonymous resolve never happened, and anonymous resolves on any two store
states return the same fresh seeded value, so concurrent anonymous callers
never observe each other's messages. -/
theorem getContext_anonymous_not_registered (prompt : String) (now now' : Nat)
    (cm cm2 : ContextManager) :
    (getContext prompt now cm none).2 = cm
    ∧ (getContext prompt now cm none).1 = freshChatContext prompt now
    ∧ (getContext prompt now cm none).1.messages = [systemSeed prompt]
    ∧ (∀ tid : Option String,
        getContext prompt now' ((getContext prompt now cm none).2) tid
          = getContext prompt now' cm tid)
    ∧ (getContext prompt now cm none).1 = (getContext prompt now cm2 none).1 :=
  ⟨rfl, rfl, rfl, fun _ => rfl, rfl⟩

/- The llm-rag service (RAGSystem.retrieveRelevantDocuments and
   enhanceSystemMessage).  The similarity score of the fixed query against a
   document is modelled as an opaque function `RagDoc → ℚ` (the spec excludes
   the embedding/cosine math, requiring only a total order and a threshold
   comparison); a scoring failure is an `Except.error`, mirroring the
   try/catch that returns null.  The JS `Array.prototype.sort` is stable per
   ECMAScript 2019, so the comparator `(a, b) => b.similarity - a.similarity`
   is modelled by a stable insertion sort under the non-strict descending
   relation on scores. -/

structure RagDoc where
  id : String
  title : String
  content : String
deriving DecidableEq

structure ScoredDoc where
  idx : Nat
  sim : ℚ
  doc : RagDoc
deriving DecidableEq

/-- Each corpus document paired with its registration index and score. -/
def scoreAll (simf : RagDoc → ℚ) (docs : List RagDoc) : List ScoredDoc :=
  docs.enum.map (fun p => ⟨p.1, simf p.2, p.2⟩)

/-- Descending-by-similarity, the order implemented by the JS comparator. -/
def simDesc (a b : ScoredDoc) : Prop := b.sim ≤ a.sim

instance : DecidableRel simDesc := fun a b => inferInstanceAs (Decidable (b.sim ≤ a.sim))

/-- The filtered-and-sorted list before truncation. -/
def rankedDocs (threshold : ℚ) (simf : RagDoc → ℚ) (docs : List RagDoc) : List ScoredDoc :=
  ((scoreAll simf docs).filter (fun d => decide (threshold ≤ d.sim))).insertionSort simDesc

/-- `RAGSystem.retrieveRelevantDocuments`: score every document, keep those
at or above the threshold, sort descending, truncate, and return null when
nothing remains or when scoring failed. -/
def retrieveRelevantDocuments (threshold : ℚ) (maxDocs : Nat) (docs : List RagDoc)
    (simq : Except String (RagDoc → ℚ)) : Option (List ScoredDoc) :=
  match simq with
  | .error _ => none
  | .ok simf =>
      let relevant := (rankedDocs threshold simf docs).take maxDocs
      if relevant.length = 0 then none else some relevant

def docBlock : Nat → List ScoredDoc → String
  | _, [] => ""
  | i, d :: ds =>
      "[文档" ++ toString i ++ "：" ++ d.doc.title ++ "]\n" ++ d.doc.content
        ++ "\n\n" ++ docBlock (i + 1) ds

def ragTailInstr : String :=
  "根据上述提供的信息来回答问题。如果信息不足，可以使用你自己的知识，但要明确指出哪些是来自文档的内容，哪些是你自己的补充。"

/-- `RAGSystem.createContext`. -/
def createContext (ds : List ScoredDoc) : Option String :=
  if ds.length = 0 then none
  else some ("以下是相关信息：\n\n" ++ docBlock 1 ds ++ ragTailInstr)

structure RagMessage where
  role : String
  content : String
  sources : Option (List String)
deriving DecidableEq

/-- `enhanceSystemMessage`: enrich the instruction message with the kept
documents, or return it unchanged when RAG is disabled, retrieval returned
nothing, or scoring failed. -/
def enhanceSystemMessage (enabled : Bool) (threshold : ℚ) (maxDocs : Nat)
    (docs : List RagDoc) (simq : Except String (RagDoc → ℚ))
    (sysMsg : RagMessage) : RagMessage :=
  if !enabled then sysMsg
  else
    match retrieveRelevantDocuments threshold maxDocs docs simq with
    | none => sysMsg
    | some ds =>
        match createContext ds with
        | none => sysMsg
        | some ctx =>
            ⟨"system", sysMsg.content ++ "\n\n" ++ ctx,
              some (ds.map (fun d => d.doc.title))⟩

/-- The order claimed by the spec: strictly higher score first, ties broken
by corpus registration order (first registered wins). -/
def ragKeyOrder (a b : ScoredDoc) : Prop :=
  b.sim < a.sim ∨ (a.sim = b.sim ∧ a.idx < b.idx)

theorem le_fst_of_mem_enumFrom {α : Type} :
    ∀ (l : List α) (n : Nat) (p : Nat × α), p ∈ l.enumFrom n → n ≤ p.1 := by
  intro l
  induction l with
  | nil => intro n p hp; simp [List.enumFrom] at hp
  | cons x xs ih =>
      intro n p hp
      rcases (by simpa [List.enumFrom] using hp : p = (n, x) ∨ p ∈ xs.enumFrom (n + 1)) with h | h
      · subst h; exact le_refl n
      · exact Nat.le_of_succ_le (ih (n + 1) p h)

theorem pairwise_fst_lt_enumFrom {α : Type} :
    ∀ (l : List α) (n : Nat), (l.enumFrom n).Pairwise (fun a b => a.1 < b.1) := by
  intro l
  induction l with
  | nil => intro n; simp [List.enumFrom]
  | cons x xs ih =>
      intro n
      refine List.Pairwise.cons ?_ (ih (n + 1))
      intro p hp
      exact Nat.lt_of_lt_of_le (Nat.lt_succ_self n) (le_fst_of_mem_enumFrom xs (n + 1) p hp)

theorem pairwise_idx_scoreAll (simf : RagDoc → ℚ) (docs : List RagDoc) :
    (scoreAll simf docs).Pairwise (fun a b => a.idx < b.idx) := by
  unfold scoreAll
  exact (pairwise_fst_lt_enumFrom docs 0).map _ (fun a b h => h)

theorem pairwise_key_orderedInsert (x : ScoredDoc) :
    ∀ (zs : List ScoredDoc), zs.Pairwise ragKeyOrder → (∀ z ∈ zs, x.idx < z.idx) →
      (zs.orderedInsert simDesc x).Pairwise ragKeyOrder := by
  intro zs
  induction zs with
  | nil => intro _ _; simp
  | cons z zs' ih =>
      intro hpw hidx
      by_cases hr : simDesc x z
      · rw [List.orderedInsert, if_pos hr]
        refine List.Pairwise.cons ?_ hpw
        intro w hw
        rcases List.mem_cons.mp hw with hw | hw
        · subst hw
          rcases lt_or_eq_of_le hr with h | h
          · exact Or.inl h
          · exact Or.inr ⟨h.symm, hidx w (by simp)⟩
        · have hzw := (List.pairwise_cons.mp hpw).1 w hw
          rcases hzw with h | h
          · exact Or.inl (lt_of_lt_of_le h hr)
          · rcases lt_or_eq_of_le hr with h2 | h2
            · exact Or.inl (h.1 ▸ h2)
            · exact Or.inr ⟨h.1 ▸ h2.symm, hidx w (List.mem_cons.mpr (Or.inr hw))⟩
      · rw [List.orderedInsert, if_neg hr]
        have hxz : x.sim < z.sim := lt_of_not_le hr
        refine List.Pairwise.cons ?_ (ih (List.pairwise_cons.mp hpw).2
          (fun w hw => hidx w (by simp [hw])))
        intro w hw
        rcases (List.mem_orderedInsert simDesc).mp hw with hw | hw
        · subst hw; exact Or.inl hxz
        · exact (List.pairwise_cons.mp hpw).1 w hw

theorem pairwise_key_insertionSort :
    ∀ (l : List ScoredDoc), l.Pairwise (fun a b => a.idx < b.idx) →
      (l.insertionSort simDesc).Pairwise ragKeyOrder := by
  intro l
  induction l with
  | nil => intro _; simp
  | cons x l' ih =>
      intro hpw
      have h1 : (x :: l').insertionSort simDesc
          = (l'.insertionSort simDesc).orderedInsert simDesc x := rfl
      rw [h1]
      refine pairwise_key_orderedInsert x _ (ih (List.pairwise_cons.mp hpw).2) ?_
      intro z hz
      exact (List.pairwise_cons.mp hpw).1 z
        ((List.perm_insertionSort simDesc l').mem_iff.mp hz)

/-- Claim C4: `augment` keeps exactly the corpus documents scoring at or
above the threshold, sorted descending by score with ties broken by corpus
registration order (first registered wins), truncated to at most the
configured maximum; and whenever the kept set is empty or scoring fails the
instruction message is returned unchanged. -/
theorem augment_threshold_sort_truncate_fallback (enabled : Bool)
    (threshold : ℚ) (maxDocs : Nat) (docs : List RagDoc)
    (simf : RagDoc → ℚ) (sysMsg : RagMessage) :
    List.Perm (rankedDocs threshold simf docs)
        ((scoreAll simf docs).filter (fun d => decide (threshold ≤ d.sim)))
    ∧ (rankedDocs threshold simf docs).Pairwise ragKeyOrder
    ∧ (∀ d, d ∈ rankedDocs threshold simf docs
        ↔ (d ∈ scoreAll simf docs ∧ threshold ≤ d.sim))
    ∧ retrieveRelevantDocuments threshold maxDocs docs (.ok simf)
        = (if ((rankedDocs threshold simf docs).take maxDocs).length = 0 then none
           else some ((rankedDocs threshold simf docs).take maxDocs))
    ∧ ((rankedDocs threshold simf docs).take maxDocs).length ≤ maxDocs
    ∧ (∀ e, enhanceSystemMessage enabled threshold maxDocs docs (.error e) sysMsg = sysMsg)
    ∧ ((rankedDocs threshold simf docs).take maxDocs = [] →
        enhanceSystemMessage enabled threshold maxDocs docs (.ok simf) sysMsg = sysMsg) := by
  refine ⟨?_, ?_, ?_, rfl, ?_, ?_, ?_⟩
  · exact List.perm_insertionSort simDesc _
  · exact pairwise_key_insertionSort _
      (List.Pairwise.sublist (List.filter_sublist _) (pairwise_idx_scoreAll simf docs))
  · intro d
    simp only [rankedDocs]
    rw [(List.perm_insertionSort simDesc _).mem_iff, List.mem_filter]
    simp
  · exact List.length_take_le maxDocs (rankedDocs threshold simf docs)
  · intro e
    cases enabled <;> simp [enhanceSystemMessage, retrieveRelevantDocuments]
  · intro hempty
    cases enabled <;>
      simp [enhanceSystemMessage, retrieveRelevantDocuments, hempty]

/-- Concrete instantiation of claim C4's theorem: with a threshold no
document reaches, and likewise on a scoring failure, the instruction message
comes back unchanged. -/
theorem augment_threshold_sort_truncate_fallback_witness :
    enhanceSystemMessage true 1 3 [⟨"1", "t1", "c1"⟩] (.ok (fun _ => 0))
        ⟨"system", "orig", none⟩ = ⟨"system", "orig", none⟩
    ∧ enhanceSystemMessage true 1 3 [⟨"1", "t1", "c1"⟩] (.error "boom")
        ⟨"system", "orig", none⟩ = ⟨"system", "orig", none⟩ :=
  ⟨(augment_threshold_sort_truncate_fallback true 1 3 [⟨"1", "t1", "c1"⟩]
      (fun _ => 0) ⟨"system", "orig", none⟩).2.2.2.2.2.2 (by decide),
   (augment_threshold_sort_truncate_fallback true 1 3 [⟨"1", "t1", "c1"⟩]
      (fun _ => 0) ⟨"system", "orig", none⟩).2.2.2.2.2.1 "boom"⟩

/- The llm-fast-reply service: the guard that decides whether the
   progressive small-model preamble call is attempted
   (`handleStreamingRequest` lines 232-244, `getSmallModelResponse`).
   `event.useProgressiveResponse` is a JS value that is `true`, `false`, or
   absent. -/

inductive JsOptBool where
  | jtrue
  | jfalse
  | jundef
deriving DecidableEq

/-- The source guard:
`(event.useProgressiveResponse === true) ||
 (PROGRESSIVE_RESPONSE.enabled && event.useProgressiveResponse !== false)`. -/
def enableProgressiveResponse (deflt : Bool) (o : JsOptBool) : Bool :=
  (o == JsOptBool.jtrue) || (deflt && !(o == JsOptBool.jfalse))

/-- The source condition guarding the `getSmallModelResponse` call:
the flag and `event.messages[event.messages.length - 1]?.role === 'user'`. -/
def progressivePreambleAttempted (deflt : Bool) (o : JsOptBool)
    (msgs : List Message) : Bool :=
  enableProgressiveResponse deflt o &&
    (match msgs.getLast? with
     | some m => m.role == "user"
     | none => false)

/-- Modelled from the spec: the effective flag is the request override when
set, and the deployment default otherwise. -/
def specEffectiveFlag (deflt : Bool) (o : JsOptBool) : Bool :=
  match o with
  | .jtrue => true
  | .jfalse => false
  | .jundef => deflt

/-- Claim C5: the progressive preamble call is attempted iff the effective
flag is on and the most recent supplied message has role `user`, where the
effective flag is the request-level override when it is set (in either
direction) and the deployment default when unset. -/
theorem progressive_preamble_guard_spec (deflt : Bool) (o : JsOptBool)
    (msgs : List Message) :
    progressivePreambleAttempted deflt o msgs = true ↔
      (specEffectiveFlag deflt o = true
        ∧ ∃ m, msgs.getLast? = some m ∧ m.role = "user") := by
  unfold progressivePreambleAttempted enableProgressiveResponse specEffectiveFlag
  cases o <;> cases deflt <;> cases h : msgs.getLast? <;>
    simp [h, beq_iff_eq]

/- The llm-tools streaming relay (`handleStreamingRequest` together with
   `handleFunctionCall`).  A provider stream is a list of chunks followed by
   an optional iteration error (an exception raised while pulling deltas, or
   while establishing the stream, in which case the chunk list is what
   arrived before the failure).  The SSE channel's `closed` property is an
   oracle indexed by the number of `sse.closed` checks performed so far; the
   channel is external, so each check simply reads the oracle.  JSON.parse of
   the argument buffer, the mock weather API and JSON.stringify of the
   result payload are opaque parameters. -/

structure ToolCallDelta where
  id : Option String
  ctype : Option String
  fnName : Option String
  fnArgs : Option String
deriving DecidableEq

structure Chunk where
  toolCallDelta : Option ToolCallDelta
  finishReason : Option String
  content : Option String
deriving DecidableEq

inductive SseFrame where
  | data (c : Chunk)
  | errF (msg : String)
  | done
deriving DecidableEq

structure WeatherArgs where
  location : String
  unit : Option String
deriving DecidableEq

structure WeatherData where
  payload : String
deriving DecidableEq

inductive FuncResult where
  | errObj (msg : String)
  | okObj (w : WeatherData)
deriving DecidableEq

/-- `handleFunctionCall`: synthesize a result payload.  An unregistered tool
name yields the not-implemented marker; an argument-parse failure yields the
parse error text; otherwise the (mock) weather API result. -/
def handleFunctionCall (parse : String → Except String WeatherArgs)
    (weatherApi : WeatherArgs → WeatherData) (name args : String) : FuncResult :=
  if name = "get_weather" then
    match parse args with
    | .ok a => .okObj (weatherApi a)
    | .error e => .errObj ("Error parsing arguments: " ++ e)
  else .errObj "Function not implemented"

structure RelayEnv where
  prompt : String
  maxM : Nat
  now : Nat
  closedO : Nat → Bool
  parse : String → Except String WeatherArgs
  weatherApi : WeatherArgs → WeatherData
  stringifyF : FuncResult → String
  model : String
  taskId : Option String
  followChunks : List Chunk
  followErr : Option String

structure RelaySt where
  resp : String
  collecting : Bool
  tcd : Option ToolCallData
  accArgs : String
  frames : List SseFrame
  t : Nat
  cm : ContextManager
  anon : List Message
  ended : Bool
  fReq : Option (List Message)
  fDone : Option ToolCallData
  err : Option String
  brk : Bool

/-- The current value of `contextData.messages`.  For a truthy task id the
context object is aliased with the store entry, so reads go through the
manager; for a falsy task id `contextData` is the local unregistered
object. -/
def readMsgs (prompt : String) (cm : ContextManager) (taskId : Option String)
    (anon : List Message) : List Message :=
  match taskId with
  | none => anon
  | some tid =>
      if tid = "" then anon
      else
        match cm.contexts tid with
        | some c => c.messages
        | none => [systemSeed prompt]

/-- The follow-up streaming loop: forward content deltas of the continuation
stream, breaking when the channel reports itself closed. -/
def runFollow (E : RelayEnv) : List Chunk → RelaySt → RelaySt
  | [], s => s
  | c :: rest, s =>
      let content := c.content.getD ""
      if content = "" then runFollow E rest s
      else
        let s1 := { s with resp := s.resp ++ content }
        let cl := E.closedO s1.t
        let s2 := { s1 with t := s1.t + 1 }
        if cl then { s2 with brk := true }
        else runFollow E rest { s2 with frames := s2.frames ++ [SseFrame.data c] }

def assistantMsg (text : String) : Message := ⟨"assistant", some text, [], none⟩

/-- The `assistantResponse && taskId` save inside the tool branch. -/
def saveResp (E : RelayEnv) (s : RelaySt) : RelaySt :=
  if s.resp ≠ "" ∧ truthy E.taskId = true then
    { s with cm := (addMessage E.prompt E.maxM E.now s.cm E.taskId (assistantMsg s.resp)) }
  else s

/-- The completed invocation record: the captured header with the
accumulated argument buffer. -/
def finalTc (s : RelaySt) : ToolCallData :=
  { s.tcd.getD ⟨"", "", "", ""⟩ with fnArgs := s.accArgs }

/-- The assistant message carrying only the invocation record. -/
def toolAssistantMsg (s : RelaySt) : Message := ⟨"assistant", none, [finalTc s], none⟩

/-- The tool-result message carrying the serialized result and referencing
the invocation. -/
def toolResultMsg (E : RelayEnv) (s : RelaySt) : Message :=
  ⟨"tool",
   some (E.stringifyF (handleFunctionCall E.parse E.weatherApi (finalTc s).fnName
     (finalTc s).fnArgs)),
   [], some (finalTc s).id⟩

/-- The part of the tool branch before the follow-up stream is consumed:
finalize the invocation record, execute the tool, append both messages to
the session when a task id is present, and record the continuation request
built from the spread of the aliased `contextData.messages` plus both
messages. -/
def toolPrep (E : RelayEnv) (s : RelaySt) : RelaySt :=
  let aMsg := toolAssistantMsg s
  let tMsg := toolResultMsg E s
  let s0 := { s with tcd := some (finalTc s) }
  let s1 :=
    if truthy E.taskId = true then
      { s0 with cm := (addMessage E.prompt E.maxM E.now (addMessage E.prompt E.maxM E.now s0.cm E.taskId aMsg) E.taskId tMsg) }
    else s0
  let req := readMsgs E.prompt s1.cm E.taskId s1.anon ++ [aMsg, tMsg]
  { s1 with fReq := some req, fDone := some (finalTc s), brk := false }

def toolBranch (E : RelayEnv) (s : RelaySt) : RelaySt :=
  let s3 := runFollow E E.followChunks (toolPrep E s)
  if s3.brk then { saveResp E s3 with brk := true }
  else
    match E.followErr with
    | some e => { s3 with err := some e, brk := true }
    | none => { saveResp E s3 with brk := true }

/-- Handling one tool-invocation-fragment delta: capture the header on the
first fragment and append the (truthy) argument fragment to the buffer. -/
def toolFragStep (s : RelaySt) (d : ToolCallDelta) : RelaySt :=
  let s1 :=
    if s.collecting then s
    else { s with collecting := true,
                  tcd := some ⟨d.id.getD "", d.ctype.getD "", d.fnName.getD "", ""⟩ }
  match d.fnArgs with
  | some a => if a = "" then s1 else { s1 with accArgs := s1.accArgs ++ a }
  | none => s1

/-- The main streaming loop of `handleStreamingRequest`: accumulate tool
invocation fragments, run the tool branch on the tool-calls finish reason,
and otherwise forward content deltas, breaking when the channel reports
itself closed. -/
def runMain (E : RelayEnv) : List Chunk → RelaySt → RelaySt
  | [], s => s
  | c :: rest, s =>
      match c.toolCallDelta with
      | some d => runMain E rest (toolFragStep s d)
      | none =>
          if s.collecting = true ∧ c.finishReason = some "tool_calls" then
            toolBranch E s
          else
            let content := c.content.getD ""
            if content = "" then runMain E rest s
            else
              let s1 := { s with resp := s.resp ++ content }
              let cl := E.closedO s1.t
              let s2 := { s1 with t := s1.t + 1 }
              if cl then { s2 with brk := true }
              else runMain E rest { s2 with frames := s2.frames ++ [SseFrame.data c] }

/-- The code after the main loop: on an exception send the error frame and
close if the channel is still open (the catch); otherwise run the final
`assistantResponse && taskId && !collectingToolCall` save and send the
terminal sentinel and close if the channel is still open. -/
def finishRelay (E : RelayEnv) (s1 : RelaySt) : RelaySt :=
  match s1.err with
  | some e =>
      let cl := E.closedO s1.t
      let s2 := { s1 with t := s1.t + 1 }
      if cl then s2
      else { s2 with
        frames := s2.frames ++ [SseFrame.errF (if e = "" then "Unknown error" else e)],
        ended := true }
  | none =>
      let s2 :=
        if s1.resp ≠ "" ∧ truthy E.taskId = true ∧ s1.collecting = false then
          { s1 with cm := (addMessage E.prompt E.maxM E.now s1.cm E.taskId (assistantMsg s1.resp)) }
        else s1
      let cl := E.closedO s2.t
      let s3 := { s2 with t := s2.t + 1 }
      if cl then s3
      else { s3 with frames := s3.frames ++ [SseFrame.done], ended := true }

/-- `handleStreamingRequest`: the early liveness check, the try body (model
check, main loop, primary-iteration failure, final save, terminal sentinel)
and the catch (error frame).  `primary` lists the chunks the provider
delivered and `primaryErr` is the exception raised at the next pull, if
any (a stream-establishment failure is `([], some e)`). -/
def handleStreamingRequest (E : RelayEnv) (cm0 : ContextManager)
    (anon0 : List Message) (primary : List Chunk) (primaryErr : Option String) :
    RelaySt :=
  let s0 : RelaySt :=
    ⟨"", false, none, "", [], 0, cm0, anon0, false, none, none, none, false⟩
  let cl0 := E.closedO s0.t
  let sA := { s0 with t := s0.t + 1 }
  if cl0 then sA
  else
    let s1 :=
      if E.model = "" then
        { sA with err := some "Model parameter is required but was not provided" }
      else
        let sB := runMain E primary sA
        if sB.err = none ∧ sB.brk = false then
          match primaryErr with
          | some e => { sB with err := some e }
          | none => sB
        else sB
    finishRelay E s1

def isTerminal : SseFrame → Bool
  | .done => true
  | .errF _ => true
  | .data _ => false

theorem runFollow_frames (E : RelayEnv) :
    ∀ (cs : List Chunk) (s : RelaySt),
      ∃ new, (runFollow E cs s).frames = s.frames ++ new
        ∧ (∀ f ∈ new, ∃ c, f = SseFrame.data c)
        ∧ (runFollow E cs s).ended = s.ended
        ∧ (runFollow E cs s).err = s.err := by
  intro cs
  induction cs with
  | nil => intro s; exact ⟨[], by simp [runFollow]⟩
  | cons c rest ih =>
      intro s
      by_cases hc : c.content.getD "" = ""
      · obtain ⟨new, h1, h2, h3, h4⟩ := ih s
        exact ⟨new, by simp [runFollow, hc, h1], h2, by simp [runFollow, hc, h3],
          by simp [runFollow, hc, h4]⟩
      · by_cases hcl : E.closedO s.t = true
        · exact ⟨[], by simp [runFollow, hc, hcl]⟩
        · obtain ⟨new, h1, h2, h3, h4⟩ := ih
            { s with resp := s.resp ++ c.content.getD "", t := s.t + 1,
                     frames := s.frames ++ [SseFrame.data c] }
          refine ⟨SseFrame.data c :: new, ?_, ?_, ?_, ?_⟩
          · simp only [runFollow, hc, if_neg hc, hcl, Bool.false_eq_true, if_false] at h1 ⊢
            rw [h1]
            simp
          · intro f hf
            rcases List.mem_cons.mp hf with hf | hf
            · exact ⟨c, hf⟩
            · exact h2 f hf
          · simp only [runFollow, hc, if_neg hc, hcl, Bool.false_eq_true, if_false] at h3 ⊢
            exact h3
          · simp only [runFollow, hc, if_neg hc, hcl, Bool.false_eq_true, if_false] at h4 ⊢
            exact h4

theorem saveResp_frames (E : RelayEnv) (s : RelaySt) :
    (saveResp E s).frames = s.frames ∧ (saveResp E s).ended = s.ended
      ∧ (saveResp E s).err = s.err := by
  unfold saveResp
  by_cases h : s.resp ≠ "" ∧ truthy E.taskId = true <;> simp [h]

theorem toolPrep_fields (E : RelayEnv) (s : RelaySt) :
    (toolPrep E s).frames = s.frames ∧ (toolPrep E s).ended = s.ended
      ∧ (toolPrep E s).err = s.err := by
  unfold toolPrep
  by_cases h : truthy E.taskId = true <;> simp [h]

theorem toolBranch_frames (E : RelayEnv) (s : RelaySt) :
    ∃ new, (toolBranch E s).frames = s.frames ++ new
      ∧ (∀ f ∈ new, ∃ c, f = SseFrame.data c)
      ∧ (toolBranch E s).ended = s.ended := by
  obtain ⟨hpf, hpe, _⟩ := toolPrep_fields E s
  obtain ⟨new, h1, h2, h3, _⟩ := runFollow_frames E E.followChunks (toolPrep E s)
  obtain ⟨hsf, hse, _⟩ := saveResp_frames E (runFollow E E.followChunks (toolPrep E s))
  refine ⟨new, ?_, h2, ?_⟩ <;> unfold toolBranch
  · by_cases hb : (runFollow E E.followChunks (toolPrep E s)).brk = true
    · simp only [hb, if_true]
      show (saveResp E _).frames = _
      rw [hsf, h1, hpf]
    · simp only [hb, Bool.false_eq_true, if_false]
      cases E.followErr with
      | some e =>
          show (runFollow E E.followChunks (toolPrep E s)).frames = _
          rw [h1, hpf]
      | none =>
          show (saveResp E _).frames = _
          rw [hsf, h1, hpf]
  · by_cases hb : (runFollow E E.followChunks (toolPrep E s)).brk = true
    · simp only [hb, if_true]
      show (saveResp E _).ended = _
      rw [hse, h3, hpe]
    · simp only [hb, Bool.false_eq_true, if_false]
      cases E.followErr with
      | some e =>
          show (runFollow E E.followChunks (toolPrep E s)).ended = _
          rw [h3, hpe]
      | none =>
          show (saveResp E _).ended = _
          rw [hse, h3, hpe]


theorem toolFragStep_fields (s : RelaySt) (d : ToolCallDelta) :
    (toolFragStep s d).frames = s.frames ∧ (toolFragStep s d).ended = s.ended
      ∧ (toolFragStep s d).err = s.err ∧ (toolFragStep s d).cm = s.cm
      ∧ (toolFragStep s d).resp = s.resp ∧ (toolFragStep s d).t = s.t
      ∧ (toolFragStep s d).brk = s.brk := by
  unfold toolFragStep
  cases d.fnArgs with
  | none => by_cases h : s.collecting <;> simp [h]
  | some a =>
      by_cases h : s.collecting <;> by_cases ha : a = "" <;> simp [h, ha]

theorem runMain_frames (E : RelayEnv) :
    ∀ (cs : List Chunk) (s : RelaySt),
      ∃ new, (runMain E cs s).frames = s.frames ++ new
        ∧ (∀ f ∈ new, ∃ c, f = SseFrame.data c)
        ∧ (runMain E cs s).ended = s.ended := by
  intro cs
  induction cs with
  | nil => intro s; exact ⟨[], by simp [runMain]⟩
  | cons c rest ih =>
      intro s
      cases hd : c.toolCallDelta with
      | some d =>
          obtain ⟨new, h1, h2, h3⟩ := ih (toolFragStep s d)
          obtain ⟨hf, he, _⟩ := toolFragStep_fields s d
          refine ⟨new, ?_, h2, ?_⟩
          · simp only [runMain, hd]
            rw [h1, hf]
          · simp only [runMain, hd]
            rw [h3, he]
      | none =>
          by_cases hfin : s.collecting = true ∧ c.finishReason = some "tool_calls"
          · obtain ⟨new, h1, h2, h3⟩ := toolBranch_frames E s
            exact ⟨new, by simp only [runMain, hd, if_pos hfin]; exact h1, h2,
              by simp only [runMain, hd, if_pos hfin]; exact h3⟩
          · by_cases hc : c.content.getD "" = ""
            · obtain ⟨new, h1, h2, h3⟩ := ih s
              exact ⟨new, by simp only [runMain, hd, if_neg hfin, hc, if_pos rfl]; exact h1,
                h2, by simp only [runMain, hd, if_neg hfin, hc, if_pos rfl]; exact h3⟩
            · by_cases hcl : E.closedO s.t = true
              · refine ⟨[], ?_, by simp, ?_⟩
                · simp [runMain, hd, hfin, hc, hcl]
                · simp [runMain, hd, hfin, hc, hcl]
              · obtain ⟨new, h1, h2, h3⟩ := ih
                  { s with resp := s.resp ++ c.content.getD "", t := s.t + 1,
                           frames := s.frames ++ [SseFrame.data c] }
                refine ⟨SseFrame.data c :: new, ?_, ?_, ?_⟩
                · simp only [runMain, hd, if_neg hfin, if_neg hc, hcl,
                    Bool.false_eq_true, if_false] at h1 ⊢
                  rw [h1]
                  simp
                · intro f hf
                  rcases List.mem_cons.mp hf with hf | hf
                  · exact ⟨c, hf⟩
                  · exact h2 f hf
                · simp only [runMain, hd, if_neg hfin, if_neg hc, hcl,
                    Bool.false_eq_true, if_false] at h3 ⊢
                  exact h3

theorem data_filter_isTerminal (l : List SseFrame)
    (h : ∀ f ∈ l, ∃ c, f = SseFrame.data c) : l.filter isTerminal = [] := by
  rw [List.filter_eq_nil_iff]
  intro f hf
  obtain ⟨c, hc⟩ := h f hf
  subst hc
  simp [isTerminal]

theorem append_terminal_props (fr : List SseFrame) (term : SseFrame)
    (hdata : ∀ f ∈ fr, ∃ c, f = SseFrame.data c) (hterm : isTerminal term = true) :
    ((fr ++ [term]).filter isTerminal).length ≤ 1
    ∧ (fr ++ [term]).filter isTerminal ≠ []
    ∧ (∀ f ∈ (fr ++ [term]).dropLast, isTerminal f = false) := by
  have hft := data_filter_isTerminal fr hdata
  refine ⟨?_, ?_, ?_⟩
  · simp [List.filter_append, hft, hterm]
  · simp [List.filter_append, hft, hterm]
  · intro f hf
    rw [List.dropLast_concat] at hf
    obtain ⟨c, hc⟩ := hdata f hf
    subst hc
    simp [isTerminal]

theorem finishRelay_terminal (E : RelayEnv) (s1 : RelaySt)
    (hdata : ∀ f ∈ s1.frames, ∃ c, f = SseFrame.data c)
    (hend : s1.ended = false) :
    ((finishRelay E s1).frames.filter isTerminal).length ≤ 1
    ∧ ((finishRelay E s1).ended = true
        ↔ (finishRelay E s1).frames.filter isTerminal ≠ [])
    ∧ (∀ f ∈ (finishRelay E s1).frames.dropLast, isTerminal f = false) := by
  have hft : s1.frames.filter isTerminal = [] := data_filter_isTerminal _ hdata
  have hdl : ∀ f ∈ s1.frames.dropLast, isTerminal f = false := by
    intro f hf
    obtain ⟨c, hc⟩ := hdata f ((List.dropLast_sublist _).mem hf)
    subst hc
    simp [isTerminal]
  simp only [finishRelay]
  cases herr : s1.err with
  | some e =>
      by_cases hcl : E.closedO s1.t = true
      · simp only [hcl, if_true]
        exact ⟨by simp [hft], by simp [hft, hend], hdl⟩
      · simp only [hcl, Bool.false_eq_true, if_false]
        obtain ⟨a, b, c⟩ := append_terminal_props s1.frames
          (SseFrame.errF (if e = "" then "Unknown error" else e)) hdata (by simp [isTerminal])
        exact ⟨a, ⟨fun _ => b, fun _ => by trivial⟩, c⟩
  | none =>
      by_cases hsave : s1.resp ≠ "" ∧ truthy E.taskId = true ∧ s1.collecting = false
      · simp only [if_pos hsave]
        by_cases hcl : E.closedO s1.t = true
        · simp only [hcl, if_true]
          exact ⟨by simp [hft], by simp [hft, hend], hdl⟩
        · simp only [hcl, Bool.false_eq_true, if_false]
          obtain ⟨a, b, c⟩ := append_terminal_props s1.frames SseFrame.done hdata
            (by simp [isTerminal])
          exact ⟨a, ⟨fun _ => b, fun _ => by trivial⟩, c⟩
      · simp only [if_neg hsave]
        by_cases hcl : E.closedO s1.t = true
        · simp only [hcl, if_true]
          exact ⟨by simp [hft], by simp [hft, hend], hdl⟩
        · simp only [hcl, Bool.false_eq_true, if_false]
          obtain ⟨a, b, c⟩ := append_terminal_props s1.frames SseFrame.done hdata
            (by simp [isTerminal])
          exact ⟨a, ⟨fun _ => b, fun _ => by trivial⟩, c⟩

/-- Claim C1: for every handled request exactly one terminal action is taken
on the output channel: the emitted frames carry at most one terminal frame
(sentinel or error), any terminal frame is the very last frame, and the
channel is ended (closed by the handler) precisely when a terminal frame was
sent — otherwise the channel is silently abandoned.  In particular a
sentinel and an error frame are never both sent for one request. -/
theorem relay_terminal_action_unique (E : RelayEnv) (cm0 : ContextManager)
    (anon0 : List Message) (primary : List Chunk) (primaryErr : Option String) :
    ((handleStreamingRequest E cm0 anon0 primary primaryErr).frames.filter isTerminal).length ≤ 1
    ∧ ((handleStreamingRequest E cm0 anon0 primary primaryErr).ended = true
        ↔ (handleStreamingRequest E cm0 anon0 primary primaryErr).frames.filter isTerminal ≠ [])
    ∧ (∀ f ∈ (handleStreamingRequest E cm0 anon0 primary primaryErr).frames.dropLast,
        isTerminal f = false) := by
  unfold handleStreamingRequest
  by_cases hcl0 : E.closedO 0 = true
  · simp only [hcl0, if_true]
    exact ⟨by simp, by simp, by simp⟩
  · simp only [hcl0, Bool.false_eq_true, if_false]
    set sA : RelaySt :=
      ⟨"", false, none, "", [], 0 + 1, cm0, anon0, false, none, none, none, false⟩ with hsA
    by_cases hmodel : E.model = ""
    · simp only [hmodel, if_pos rfl]
      exact finishRelay_terminal E _ (by simp [hsA]) (by simp [hsA])
    · simp only [if_neg hmodel]
      obtain ⟨new, h1, h2, h3⟩ := runMain_frames E primary sA
      have hdataB : ∀ f ∈ (runMain E primary sA).frames, ∃ c, f = SseFrame.data c := by
        intro f hf
        rw [h1] at hf
        rcases List.mem_append.mp hf with hf | hf
        · simp [hsA] at hf
        · exact h2 f hf
      have hendB : (runMain E primary sA).ended = false := by
        rw [h3]
      by_cases hok : (runMain E primary sA).err = none ∧ (runMain E primary sA).brk = false
      · simp only [if_pos hok]
        cases primaryErr with
        | some e => exact finishRelay_terminal E _ (by simpa using hdataB) (by simpa using hendB)
        | none => exact finishRelay_terminal E _ hdataB hendB
      · simp only [if_neg hok]
        exact finishRelay_terminal E _ hdataB hendB

theorem finishRelay_resp (E : RelayEnv) (s1 : RelaySt) :
    (finishRelay E s1).resp = s1.resp := by
  simp only [finishRelay]
  cases herr : s1.err with
  | some e =>
      by_cases hcl : E.closedO s1.t = true <;> simp [hcl]
  | none =>
      by_cases hsave : s1.resp ≠ "" ∧ truthy E.taskId = true ∧ s1.collecting = false <;>
        by_cases hcl : E.closedO s1.t = true <;> simp [hsave, hcl]

theorem finishRelay_cm_cases (E : RelayEnv) (s1 : RelaySt) (herr : s1.err = none) :
    (finishRelay E s1).cm = s1.cm
    ∨ (s1.resp ≠ "" ∧ truthy E.taskId = true ∧ s1.collecting = false
        ∧ (finishRelay E s1).cm
            = addMessage E.prompt E.maxM E.now s1.cm E.taskId (assistantMsg s1.resp)) := by
  simp only [finishRelay, herr]
  by_cases hsave : s1.resp ≠ "" ∧ truthy E.taskId = true ∧ s1.collecting = false
  · refine Or.inr ⟨hsave.1, hsave.2.1, hsave.2.2, ?_⟩
    by_cases hcl : E.closedO s1.t = true <;> simp [hsave, hcl]
  · refine Or.inl ?_
    by_cases hcl : E.closedO s1.t = true <;> simp [hsave, hcl]

theorem runMain_noTool (E : RelayEnv) :
    ∀ (cs : List Chunk) (s : RelaySt), (∀ c ∈ cs, c.toolCallDelta = none) →
      s.collecting = false →
      (runMain E cs s).cm = s.cm ∧ (runMain E cs s).err = s.err
        ∧ (runMain E cs s).collecting = false := by
  intro cs
  induction cs with
  | nil => intro s _ hcoll; exact ⟨rfl, rfl, hcoll⟩
  | cons c rest ih =>
      intro s hnt hcoll
      have hc0 : c.toolCallDelta = none := hnt c (by simp)
      have hrest : ∀ c ∈ rest, c.toolCallDelta = none :=
        fun c hc => hnt c (by simp [hc])
      have hfin : ¬(s.collecting = true ∧ c.finishReason = some "tool_calls") := by
        rw [hcoll]; simp
      by_cases hcc : c.content.getD "" = ""
      · have := ih s hrest hcoll
        simpa only [runMain, hc0, if_neg hfin, hcc, if_pos rfl] using this
      · by_cases hcl : E.closedO s.t = true
        · refine ⟨?_, ?_, ?_⟩ <;> simp [runMain, hc0, hfin, hcc, hcl, hcoll]
        · have h9 := ih { s with resp := s.resp ++ c.content.getD "", t := s.t + 1, frames := s.frames ++ [SseFrame.data c] } hrest hcoll
          simpa only [runMain, hc0, if_neg hfin, if_neg hcc, hcl, Bool.false_eq_true,
            if_false] using h9

/-- Claim C10: for every handled request that reaches normal stream end, an
assistant message is persisted to the session only when both a session
identifier was supplied and the accumulated assistant text is non-empty;
when the accumulated text is empty, the persistence step leaves the session
store unchanged.  (Stated for requests whose primary stream carries no
tool-invocation deltas, so the final persistence step is the only store
write.) -/
theorem final_persistence_guard (E : RelayEnv) (cm0 : ContextManager)
    (anon0 : List Message) (primary : List Chunk) (primaryErr : Option String)
    (hnt : ∀ c ∈ primary, c.toolCallDelta = none)
    (hok : primaryErr = none) (hmodel : E.model ≠ "") :
    ((handleStreamingRequest E cm0 anon0 primary primaryErr).resp = "" →
      (handleStreamingRequest E cm0 anon0 primary primaryErr).cm = cm0)
    ∧ ((handleStreamingRequest E cm0 anon0 primary primaryErr).cm ≠ cm0 →
        truthy E.taskId = true
        ∧ (handleStreamingRequest E cm0 anon0 primary primaryErr).resp ≠ "") := by
  subst hok
  unfold handleStreamingRequest
  by_cases hcl0 : E.closedO 0 = true
  · refine ⟨?_, ?_⟩ <;> simp [hcl0]
  · simp only [hcl0, Bool.false_eq_true, if_false, if_neg hmodel]
    set sA : RelaySt :=
      ⟨"", false, none, "", [], 0 + 1, cm0, anon0, false, none, none, none, false⟩ with hsA
    obtain ⟨hcm, herr, hcoll⟩ := runMain_noTool E primary sA hnt (by simp [hsA])
    have herr' : (runMain E primary sA).err = none := by
      rw [herr]
    have hs1 : (if (runMain E primary sA).err = none ∧ (runMain E primary sA).brk = false
        then (runMain E primary sA) else (runMain E primary sA)) = runMain E primary sA := by
      by_cases h : (runMain E primary sA).err = none ∧ (runMain E primary sA).brk = false <;>
        simp [h]
    rw [hs1]
    have hresp := finishRelay_resp E (runMain E primary sA)
    have hcmc := finishRelay_cm_cases E (runMain E primary sA) herr'
    constructor
    · intro h0
      rcases hcmc with h | h
      · rw [h, hcm]
        try simp [hsA]
      · exact absurd (hresp ▸ h0) h.1
    · intro h0
      rcases hcmc with h | h
      · exact absurd (by rw [h, hcm]; try simp [hsA]) h0
      · exact ⟨h.2.1, by rw [hresp]; exact h.1⟩

def stringifyDemo : FuncResult → String
  | .errObj m => "ERR " ++ m
  | .okObj w => w.payload

/-- A concrete relay environment used by the witnesses below. -/
def mkEnv (clo : Nat → Bool) (parse : String → Except String WeatherArgs)
    (fchunks : List Chunk) (ferr : Option String) (tid : Option String) : RelayEnv :=
  ⟨"p", 10, 0, clo, parse, fun _ => ⟨"wx"⟩, stringifyDemo, "m", tid, fchunks, ferr⟩

/-- Concrete instantiation of claim C10's theorem. -/
theorem final_persistence_guard_witness :
    ((handleStreamingRequest
        (mkEnv (fun _ => false) (fun _ => .error "bad") [] none (some "s1"))
        wcm [] [⟨none, none, some "Hi"⟩] none).resp = "" →
      (handleStreamingRequest
        (mkEnv (fun _ => false) (fun _ => .error "bad") [] none (some "s1"))
        wcm [] [⟨none, none, some "Hi"⟩] none).cm = wcm)
    ∧ ((handleStreamingRequest
        (mkEnv (fun _ => false) (fun _ => .error "bad") [] none (some "s1"))
        wcm [] [⟨none, none, some "Hi"⟩] none).cm ≠ wcm →
        truthy (mkEnv (fun _ => false) (fun _ => .error "bad") [] none (some "s1")).taskId = true
        ∧ (handleStreamingRequest
            (mkEnv (fun _ => false) (fun _ => .error "bad") [] none (some "s1"))
            wcm [] [⟨none, none, some "Hi"⟩] none).resp ≠ "") :=
  final_persistence_guard
    (mkEnv (fun _ => false) (fun _ => .error "bad") [] none (some "s1"))
    wcm [] [⟨none, none, some "Hi"⟩] none
    (by decide) rfl (by decide)

/-- The concatenation, in arrival order, of the content of a chunk list. -/
def concatContents : List Chunk → String
  | [] => ""
  | c :: cs => c.content.getD "" ++ concatContents cs

/-- The data frames a fully forwarded chunk list produces (chunks with
truthy content, in order). -/
def contentFrames (cs : List Chunk) : List SseFrame :=
  (cs.filter (fun c => !(c.content.getD "" == ""))).map SseFrame.data

/-- The number of closed-checks a fully forwarded chunk list performs. -/
def nccOf (cs : List Chunk) : Nat :=
  (cs.filter (fun c => !(c.content.getD "" == ""))).length

theorem runMain_cons_frag (E : RelayEnv) (x : Chunk) (rest : List Chunk)
    (s : RelaySt) (d : ToolCallDelta) (hx : x.toolCallDelta = some d) :
    runMain E (x :: rest) s = runMain E rest (toolFragStep s d) := by
  simp [runMain, hx]

theorem runMain_cons_fin (E : RelayEnv) (x : Chunk) (rest : List Chunk)
    (s : RelaySt) (hx : x.toolCallDelta = none)
    (hfin : s.collecting = true ∧ x.finishReason = some "tool_calls") :
    runMain E (x :: rest) s = toolBranch E s := by
  simp [runMain, hx, hfin]

theorem runMain_cons_skip (E : RelayEnv) (x : Chunk) (rest : List Chunk)
    (s : RelaySt) (hx : x.toolCallDelta = none)
    (hfin : ¬(s.collecting = true ∧ x.finishReason = some "tool_calls"))
    (hxc : x.content.getD "" = "") :
    runMain E (x :: rest) s = runMain E rest s := by
  simp [runMain, hx, hfin, hxc]

theorem runMain_cons_send (E : RelayEnv) (x : Chunk) (rest : List Chunk)
    (s : RelaySt) (hx : x.toolCallDelta = none)
    (hfin : ¬(s.collecting = true ∧ x.finishReason = some "tool_calls"))
    (hxc : ¬ x.content.getD "" = "") (hcl : E.closedO s.t = false) :
    runMain E (x :: rest) s
      = runMain E rest { s with resp := s.resp ++ x.content.getD "", t := s.t + 1, frames := s.frames ++ [SseFrame.data x] } := by
  simp [runMain, hx, hfin, hxc, hcl]

theorem runMain_cons_break (E : RelayEnv) (x : Chunk) (rest : List Chunk)
    (s : RelaySt) (hx : x.toolCallDelta = none)
    (hfin : ¬(s.collecting = true ∧ x.finishReason = some "tool_calls"))
    (hxc : ¬ x.content.getD "" = "") (hcl : E.closedO s.t = true) :
    runMain E (x :: rest) s
      = { s with resp := s.resp ++ x.content.getD "", t := s.t + 1, brk := true } := by
  simp [runMain, hx, hfin, hxc, hcl]

theorem c7aux (E : RelayEnv) (c : Chunk) (post : List Chunk)
    (hc : c.toolCallDelta = none) (hcc : ¬ c.content.getD "" = "") :
    ∀ (pre : List Chunk) (s : RelaySt),
      (∀ x ∈ pre, x.toolCallDelta = none) → s.collecting = false →
      (∀ i, i < s.t + nccOf pre → E.closedO i = false) →
      E.closedO (s.t + nccOf pre) = true →
      runMain E (pre ++ c :: post) s
        = { s with resp := s.resp ++ concatContents pre ++ c.content.getD "",
                   frames := s.frames ++ contentFrames pre,
                   t := s.t + nccOf pre + 1, brk := true }
      ∧ runMain E (pre ++ [c]) s
        = { s with resp := s.resp ++ concatContents pre ++ c.content.getD "",
                   frames := s.frames ++ contentFrames pre,
                   t := s.t + nccOf pre + 1, brk := true } := by
  intro pre
  induction pre with
  | nil =>
      intro s _ hcoll _ hclosed
      have hfin : ¬(s.collecting = true ∧ c.finishReason = some "tool_calls") := by
        rw [hcoll]; simp
      have hcl : E.closedO s.t = true := by simpa [nccOf] using hclosed
      refine ⟨?_, ?_⟩ <;>
        · rw [List.nil_append, runMain_cons_break E c _ s hc hfin hcc hcl]
          simp [concatContents, contentFrames, nccOf, String.append_empty]
  | cons x pre' ih =>
      intro s hnt hcoll hopen hclosed
      have hx : x.toolCallDelta = none := hnt x (by simp)
      have hrest : ∀ y ∈ pre', y.toolCallDelta = none := fun y hy => hnt y (by simp [hy])
      have hfin : ¬(s.collecting = true ∧ x.finishReason = some "tool_calls") := by
        rw [hcoll]; simp
      by_cases hxc : x.content.getD "" = ""
      · have hncc : nccOf (x :: pre') = nccOf pre' := by simp [nccOf, hxc]
        have hcat : concatContents (x :: pre') = concatContents pre' := by
          simp [concatContents, hxc, String.empty_append]
        have hfr : contentFrames (x :: pre') = contentFrames pre' := by
          simp [contentFrames, hxc]
        obtain ⟨ha, hb⟩ := ih s hrest hcoll
          (by rw [← hncc]; exact hopen) (by rw [← hncc]; exact hclosed)
        constructor
        · rw [show (x :: pre') ++ c :: post = x :: (pre' ++ c :: post) from rfl,
              runMain_cons_skip E x _ s hx hfin hxc, ha, hncc, hcat, hfr]
        · rw [show (x :: pre') ++ [c] = x :: (pre' ++ [c]) from rfl,
              runMain_cons_skip E x _ s hx hfin hxc, hb, hncc, hcat, hfr]
      · have hncc : nccOf (x :: pre') = nccOf pre' + 1 := by
          simp [nccOf, hxc]
        have hclx : E.closedO s.t = false := by
          refine hopen s.t ?_
          rw [hncc]; omega
        have hopen' : ∀ i, i < s.t + 1 + nccOf pre' → E.closedO i = false := by
          intro i hi
          refine hopen i ?_
          rw [hncc]; omega
        have hclosed' : E.closedO (s.t + 1 + nccOf pre') = true := by
          have h0 : s.t + 1 + nccOf pre' = s.t + nccOf (x :: pre') := by
            rw [hncc]; omega
          rw [h0]; exact hclosed
        obtain ⟨ha, hb⟩ := ih
          { s with resp := s.resp ++ x.content.getD "", t := s.t + 1, frames := s.frames ++ [SseFrame.data x] }
          hrest hcoll hopen' hclosed'
        have hcat : concatContents (x :: pre')
            = x.content.getD "" ++ concatContents pre' := rfl
        have hfr : contentFrames (x :: pre')
            = SseFrame.data x :: contentFrames pre' := by
          simp [contentFrames, hxc]
        constructor
        · rw [show (x :: pre') ++ c :: post = x :: (pre' ++ c :: post) from rfl,
              runMain_cons_send E x _ s hx hfin hxc hclx, ha, hcat, hfr, hncc]
          simp [String.append_assoc]
          omega
        · rw [show (x :: pre') ++ [c] = x :: (pre' ++ [c]) from rfl,
              runMain_cons_send E x _ s hx hfin hxc hclx, hb, hcat, hfr, hncc]
          simp [String.append_assoc]
          omega

theorem finishRelay_closed_fields (E : RelayEnv) (s1 : RelaySt) (herr : s1.err = none)
    (hcl : E.closedO s1.t = true) :
    (finishRelay E s1).frames = s1.frames ∧ (finishRelay E s1).ended = s1.ended
      ∧ (finishRelay E s1).resp = s1.resp := by
  simp only [finishRelay, herr]
  by_cases hsave : s1.resp ≠ "" ∧ truthy E.taskId = true ∧ s1.collecting = false
  · simp [hsave, hcl]
  · simp [hsave, hcl]

theorem contentFrames_data (cs : List Chunk) :
    ∀ f ∈ contentFrames cs, ∃ c, f = SseFrame.data c := by
  intro f hf
  simp only [contentFrames, List.mem_map] at hf
  obtain ⟨c, _, hc⟩ := hf
  exact ⟨c, hc.symm⟩

/-- Claim C7 (amended): whenever a send attempt observes the output channel
closed during streaming, the relay immediately breaks: deltas beyond the
breaking one are never read (the run is identical for every continuation of
the stream), nothing at or after the breaking delta is forwarded, and no
error frame or sentinel is emitted; however the breaking delta's content has
already been accumulated into the assistant text before the closed check, so
it is processed (and may later be persisted) even though it arrived after
the channel closed. -/
theorem relay_disconnect_stops_after_observation (E : RelayEnv)
    (cm0 : ContextManager) (anon0 : List Message) (pre : List Chunk) (c : Chunk)
    (post : List Chunk) (pErr : Option String)
    (hmodel : E.model ≠ "")
    (hnt : ∀ x ∈ pre, x.toolCallDelta = none)
    (hc : c.toolCallDelta = none) (hcc : ¬ c.content.getD "" = "")
    (hopen : ∀ i, i < 1 + nccOf pre → E.closedO i = false)
    (hclosed : E.closedO (1 + nccOf pre) = true)
    (hmono : ∀ i j, i ≤ j → E.closedO i = true → E.closedO j = true) :
    handleStreamingRequest E cm0 anon0 (pre ++ c :: post) pErr
      = handleStreamingRequest E cm0 anon0 (pre ++ [c]) pErr
    ∧ (handleStreamingRequest E cm0 anon0 (pre ++ c :: post) pErr).frames
        = contentFrames pre
    ∧ (handleStreamingRequest E cm0 anon0 (pre ++ c :: post) pErr).frames.filter
        isTerminal = []
    ∧ (handleStreamingRequest E cm0 anon0 (pre ++ c :: post) pErr).ended = false
    ∧ (handleStreamingRequest E cm0 anon0 (pre ++ c :: post) pErr).resp
        = concatContents pre ++ c.content.getD "" := by
  have hcl0 : E.closedO 0 = false := hopen 0 (by omega)
  obtain ⟨ha, hb⟩ := c7aux E c post hc hcc pre
    ⟨"", false, none, "", [], 0 + 1, cm0, anon0, false, none, none, none, false⟩
    hnt rfl (fun i hi => hopen i (by simpa using hi)) (by simpa using hclosed)
  have hrun : handleStreamingRequest E cm0 anon0 (pre ++ c :: post) pErr
      = finishRelay E ⟨"" ++ concatContents pre ++ c.content.getD "", false, none, "",
          [] ++ contentFrames pre, 0 + 1 + nccOf pre + 1, cm0, anon0, false, none,
          none, none, true⟩ := by
    unfold handleStreamingRequest
    simp only [hcl0, Bool.false_eq_true, if_false, if_neg hmodel]
    rw [ha]
    simp
  have hrun2 : handleStreamingRequest E cm0 anon0 (pre ++ [c]) pErr
      = finishRelay E ⟨"" ++ concatContents pre ++ c.content.getD "", false, none, "",
          [] ++ contentFrames pre, 0 + 1 + nccOf pre + 1, cm0, anon0, false, none,
          none, none, true⟩ := by
    unfold handleStreamingRequest
    simp only [hcl0, Bool.false_eq_true, if_false, if_neg hmodel]
    rw [hb]
    simp
  have hclT : E.closedO (0 + 1 + nccOf pre + 1) = true :=
    hmono (1 + nccOf pre) (0 + 1 + nccOf pre + 1) (by omega) hclosed
  obtain ⟨hfr, hen, hrp⟩ := finishRelay_closed_fields E
    ⟨"" ++ concatContents pre ++ c.content.getD "", false, none, "",
      [] ++ contentFrames pre, 0 + 1 + nccOf pre + 1, cm0, anon0, false, none,
      none, none, true⟩ rfl hclT
  refine ⟨hrun.trans hrun2.symm, ?_, ?_, ?_, ?_⟩
  · rw [hrun, hfr]
    simp
  · rw [hrun, hfr]
    refine data_filter_isTerminal _ ?_
    intro f hf
    exact contentFrames_data pre f (by simpa using hf)
  · rw [hrun, hen]
  · rw [hrun, hrp]
    simp [String.empty_append]

def cA : Chunk := ⟨none, none, some "A"⟩

def cB : Chunk := ⟨none, none, some "B"⟩

def cZ : Chunk := ⟨none, none, some "Z"⟩

def wcm1 : ContextManager :=
  ⟨fun k => if k = "s1" then some ⟨[wSys], 0, 0⟩ else none⟩

/-- An environment whose output channel reports itself closed from the third
`closed` check onwards (entry check and first send-check open). -/
def cexEnv : RelayEnv :=
  mkEnv (fun t => decide (2 ≤ t)) (fun _ => .error "bad") [] none (some "s1")

/-- Counterexample to claim C7 as stated: with the channel closing after the
first forwarded delta, the next delta `cB` arrives after the channel is
closed, yet its content is still processed — it is appended to the
accumulated assistant text (observably: the session's persisted assistant
message reads "AB", not "A") — although it is not forwarded and no error
frame or sentinel is emitted.  Under the claim, no delta of a suffix
arriving after closure would be processed, so the accumulated text would
have stayed "A". -/
theorem relay_disconnect_processes_breaking_delta_cex :
    (handleStreamingRequest cexEnv wcm1 [] [cA, cB] none).resp = "AB"
    ∧ (handleStreamingRequest cexEnv wcm1 [] [cA, cB] none).resp ≠ "A"
    ∧ (handleStreamingRequest cexEnv wcm1 [] [cA, cB] none).frames = [SseFrame.data cA]
    ∧ ((handleStreamingRequest cexEnv wcm1 [] [cA, cB] none).cm.contexts "s1").map
        ChatContext.messages = some [wSys, assistantMsg "AB"] := by
  refine ⟨by decide, by decide, by decide, by decide⟩

/-- Concrete instantiation of claim C7's amended theorem. -/
theorem relay_disconnect_stops_after_observation_witness :
    handleStreamingRequest cexEnv wcm1 [] ([cA] ++ cB :: [cZ]) none
      = handleStreamingRequest cexEnv wcm1 [] ([cA] ++ [cB]) none
    ∧ (handleStreamingRequest cexEnv wcm1 [] ([cA] ++ cB :: [cZ]) none).frames
        = contentFrames [cA]
    ∧ (handleStreamingRequest cexEnv wcm1 [] ([cA] ++ cB :: [cZ]) none).frames.filter
        isTerminal = []
    ∧ (handleStreamingRequest cexEnv wcm1 [] ([cA] ++ cB :: [cZ]) none).ended = false
    ∧ (handleStreamingRequest cexEnv wcm1 [] ([cA] ++ cB :: [cZ]) none).resp
        = concatContents [cA] ++ cB.content.getD "" := by
  refine relay_disconnect_stops_after_observation cexEnv wcm1 [] [cA] cB [cZ] none
    ?_ ?_ rfl ?_ ?_ ?_ ?_
  · decide
  · decide
  · decide
  · intro i hi
    have h2 : i < 2 := by
      have hn : nccOf [cA] = 1 := by decide
      omega
    interval_cases i <;> rfl
  · rfl
  · intro i j hij hi
    have h1 : 2 ≤ i := by simpa [cexEnv, mkEnv] using hi
    show decide (2 ≤ j) = true
    simp
    omega

/-- The argument fragments carried by a chunk list, in arrival order. -/
def fragsOf (cs : List Chunk) : List String :=
  cs.filterMap (fun c => c.toolCallDelta.bind (fun d => d.fnArgs))

/-- Concatenation of fragments in arrival order. -/
def joinFrags : List String → String
  | [] => ""
  | a :: l => a ++ joinFrags l

theorem toolFragStep_collecting (s : RelaySt) (d : ToolCallDelta)
    (h : s.collecting = true) :
    toolFragStep s d = { s with accArgs := s.accArgs ++ d.fnArgs.getD "" } := by
  obtain ⟨resp, coll, tcd, accArgs, frames, t, cm, anon, ended, fReq, fDone, err, brk⟩ := s
  replace h : coll = true := h
  subst h
  cases hdf : d.fnArgs with
  | none => simp [toolFragStep, hdf, String.append_empty]
  | some a =>
      by_cases ha : a = ""
      · subst ha
        simp [toolFragStep, hdf, String.append_empty]
      · simp [toolFragStep, hdf, ha]

theorem preFrags (E : RelayEnv) :
    ∀ (pre rest : List Chunk) (s : RelaySt),
      (∀ x ∈ pre, x.toolCallDelta ≠ none) → s.collecting = true →
      runMain E (pre ++ rest) s
        = runMain E rest { s with accArgs := s.accArgs ++ joinFrags (fragsOf pre) } := by
  intro pre
  induction pre with
  | nil =>
      intro rest s _ _
      rw [List.nil_append,
        show joinFrags (fragsOf []) = "" from rfl, String.append_empty]
  | cons x pre' ih =>
      intro rest s hfrag hcoll
      cases hd : x.toolCallDelta with
      | none => exact absurd hd (hfrag x (by simp))
      | some d =>
          rw [show (x :: pre') ++ rest = x :: (pre' ++ rest) from rfl,
            runMain_cons_frag E x _ s d hd, toolFragStep_collecting s d hcoll,
            ih rest { s with accArgs := s.accArgs ++ d.fnArgs.getD "" }
              (fun y hy => hfrag y (by simp [hy])) hcoll]
          congr 1
          cases hdf : d.fnArgs with
          | none =>
              simp [fragsOf, List.filterMap_cons, hd, hdf, String.append_empty]
          | some a =>
              simp [fragsOf, joinFrags, List.filterMap_cons, hd, hdf,
                String.append_assoc]

theorem saveResp_proj (E : RelayEnv) (s : RelaySt) :
    (saveResp E s).resp = s.resp ∧ (saveResp E s).collecting = s.collecting
      ∧ (saveResp E s).tcd = s.tcd ∧ (saveResp E s).accArgs = s.accArgs
      ∧ (saveResp E s).frames = s.frames ∧ (saveResp E s).t = s.t
      ∧ (saveResp E s).anon = s.anon ∧ (saveResp E s).ended = s.ended
      ∧ (saveResp E s).fReq = s.fReq ∧ (saveResp E s).fDone = s.fDone
      ∧ (saveResp E s).err = s.err ∧ (saveResp E s).brk = s.brk := by
  unfold saveResp
  by_cases h : s.resp ≠ "" ∧ truthy E.taskId = true <;> simp [h]

theorem runFollow_open (E : RelayEnv) (hO : ∀ i, E.closedO i = false) :
    ∀ (cs : List Chunk) (s : RelaySt),
      runFollow E cs s
        = { s with resp := s.resp ++ concatContents cs,
                   frames := s.frames ++ contentFrames cs,
                   t := s.t + nccOf cs } := by
  intro cs
  induction cs with
  | nil =>
      intro s
      show s = _
      simp [concatContents, contentFrames, nccOf, String.append_empty]
  | cons x cs' ih =>
      intro s
      by_cases hxc : x.content.getD "" = ""
      · have h1 : runFollow E (x :: cs') s = runFollow E cs' s := by
          simp [runFollow, hxc]
        rw [h1, ih s]
        have hncc : nccOf (x :: cs') = nccOf cs' := by simp [nccOf, hxc]
        have hcat : concatContents (x :: cs') = concatContents cs' := by
          simp [concatContents, hxc, String.empty_append]
        have hfr : contentFrames (x :: cs') = contentFrames cs' := by
          simp [contentFrames, hxc]
        rw [hncc, hcat, hfr]
      · have h1 : runFollow E (x :: cs') s
            = runFollow E cs' { s with resp := s.resp ++ x.content.getD "", t := s.t + 1, frames := s.frames ++ [SseFrame.data x] } := by
          simp [runFollow, hxc, hO]
        rw [h1, ih]
        have hncc : nccOf (x :: cs') = nccOf cs' + 1 := by simp [nccOf, hxc]
        have hcat : concatContents (x :: cs')
            = x.content.getD "" ++ concatContents cs' := rfl
        have hfr : contentFrames (x :: cs')
            = SseFrame.data x :: contentFrames cs' := by simp [contentFrames, hxc]
        rw [hncc, hcat, hfr]
        simp [String.append_assoc]
        omega

/-- The session store after the tool branch appended the assistant tool-call
message and the tool-result message (a no-op without a truthy task id). -/
def toolCm (E : RelayEnv) (s : RelaySt) : ContextManager :=
  if truthy E.taskId = true then
    addMessage E.prompt E.maxM E.now
      (addMessage E.prompt E.maxM E.now s.cm E.taskId (toolAssistantMsg s))
      E.taskId (toolResultMsg E s)
  else s.cm

theorem toolPrep_char (E : RelayEnv) (s : RelaySt) :
    toolPrep E s
      = { s with tcd := some (finalTc s), cm := toolCm E s,
                 fReq := some (readMsgs E.prompt (toolCm E s) E.taskId s.anon
                   ++ [toolAssistantMsg s, toolResultMsg E s]),
                 fDone := some (finalTc s), brk := false } := by
  unfold toolPrep toolCm toolAssistantMsg toolResultMsg
  by_cases h : truthy E.taskId = true <;> simp [h]

theorem saveRespErr (E : RelayEnv) (s : RelaySt) : (saveResp E s).err = s.err := by
  unfold saveResp
  by_cases h : s.resp ≠ "" ∧ truthy E.taskId = true <;> simp [h]

theorem saveRespColl (E : RelayEnv) (s : RelaySt) :
    (saveResp E s).collecting = s.collecting := by
  unfold saveResp
  by_cases h : s.resp ≠ "" ∧ truthy E.taskId = true <;> simp [h]

theorem saveRespFDone (E : RelayEnv) (s : RelaySt) : (saveResp E s).fDone = s.fDone := by
  unfold saveResp
  by_cases h : s.resp ≠ "" ∧ truthy E.taskId = true <;> simp [h]

theorem saveRespFReq (E : RelayEnv) (s : RelaySt) : (saveResp E s).fReq = s.fReq := by
  unfold saveResp
  by_cases h : s.resp ≠ "" ∧ truthy E.taskId = true <;> simp [h]

theorem saveRespFrames (E : RelayEnv) (s : RelaySt) : (saveResp E s).frames = s.frames := by
  unfold saveResp
  by_cases h : s.resp ≠ "" ∧ truthy E.taskId = true <;> simp [h]

theorem toolFragStep_start (s : RelaySt) (d : ToolCallDelta)
    (h : s.collecting = false) :
    toolFragStep s d
      = { s with collecting := true,
                 tcd := some ⟨d.id.getD "", d.ctype.getD "", d.fnName.getD "", ""⟩,
                 accArgs := s.accArgs ++ d.fnArgs.getD "" } := by
  obtain ⟨resp, coll, tcd, accArgs, frames, t, cm, anon, ended, fReq, fDone, err, brk⟩ := s
  replace h : coll = false := h
  subst h
  cases hdf : d.fnArgs with
  | none => simp [toolFragStep, hdf, String.append_empty]
  | some a =>
      by_cases ha : a = ""
      · subst ha
        simp [toolFragStep, hdf, String.append_empty]
      · simp [toolFragStep, hdf, ha]

theorem toolBranch_char (E : RelayEnv) (s : RelaySt)
    (hO : ∀ i, E.closedO i = false) (hfe : E.followErr = none) :
    toolBranch E s
      = { saveResp E
          { s with resp := s.resp ++ concatContents E.followChunks,
                   tcd := some (finalTc s), cm := toolCm E s,
                   fReq := some (readMsgs E.prompt (toolCm E s) E.taskId s.anon
                     ++ [toolAssistantMsg s, toolResultMsg E s]),
                   fDone := some (finalTc s),
                   frames := s.frames ++ contentFrames E.followChunks,
                   t := s.t + nccOf E.followChunks, brk := false }
          with brk := true } := by
  unfold toolBranch
  rw [toolPrep_char, runFollow_open E hO, hfe]
  simp

theorem finishRelay_open_toolpath (E : RelayEnv) (s1 : RelaySt)
    (herr : s1.err = none) (hcoll : s1.collecting = true)
    (hcl : E.closedO s1.t = false) :
    finishRelay E s1
      = { s1 with t := s1.t + 1, frames := s1.frames ++ [SseFrame.done],
                  ended := true } := by
  have hsave : ¬(s1.resp ≠ "" ∧ truthy E.taskId = true ∧ s1.collecting = false) := by
    simp [hcoll]
  simp only [finishRelay]
  cases he : s1.err with
  | some e => rw [he] at herr; exact absurd herr (by simp)
  | none => simp [hsave, hcl, he]

theorem errF_not_mem_cf_done (cs : List Chunk) (m : String) :
    SseFrame.errF m ∉ contentFrames cs ++ [SseFrame.done] := by
  intro hm
  rcases List.mem_append.mp hm with h | h
  · obtain ⟨c, hc⟩ := contentFrames_data cs _ (by simpa using h)
    simp at hc
  · simp at h

theorem toolScenario (E : RelayEnv) (cm0 : ContextManager) (anon0 : List Message)
    (d0 : ToolCallDelta) (c0 fin : Chunk) (pre post : List Chunk)
    (pErr : Option String)
    (hO : ∀ i, E.closedO i = false) (hmodel : E.model ≠ "")
    (hfe : E.followErr = none)
    (hc0 : c0.toolCallDelta = some d0)
    (hfrag : ∀ x ∈ pre, x.toolCallDelta ≠ none)
    (hfin1 : fin.toolCallDelta = none)
    (hfin2 : fin.finishReason = some "tool_calls") :
    ∃ sF : RelaySt,
      finalTc sF = ⟨d0.id.getD "", d0.ctype.getD "", d0.fnName.getD "",
        joinFrags (fragsOf (c0 :: pre))⟩
      ∧ sF.anon = anon0
      ∧ (handleStreamingRequest E cm0 anon0 (c0 :: (pre ++ fin :: post)) pErr).fDone
          = some (finalTc sF)
      ∧ (handleStreamingRequest E cm0 anon0 (c0 :: (pre ++ fin :: post)) pErr).fReq
          = some (readMsgs E.prompt (toolCm E sF) E.taskId sF.anon
              ++ [toolAssistantMsg sF, toolResultMsg E sF])
      ∧ SseFrame.done ∈
          (handleStreamingRequest E cm0 anon0 (c0 :: (pre ++ fin :: post)) pErr).frames
      ∧ (∀ m, SseFrame.errF m ∉
          (handleStreamingRequest E cm0 anon0 (c0 :: (pre ++ fin :: post)) pErr).frames)
      ∧ (handleStreamingRequest E cm0 anon0 (c0 :: (pre ++ fin :: post)) pErr).ended = true
      ∧ (handleStreamingRequest E cm0 anon0 (c0 :: (pre ++ fin :: post)) pErr).err
          = none := by
  have hcl0 : E.closedO 0 = false := hO 0
  unfold handleStreamingRequest
  simp only [hcl0, Bool.false_eq_true, if_false, if_neg hmodel]
  set sA : RelaySt :=
    ⟨"", false, none, "", [], 0 + 1, cm0, anon0, false, none, none, none, false⟩ with hsA
  set SF1 : RelaySt :=
    ⟨"", true, some ⟨d0.id.getD "", d0.ctype.getD "", d0.fnName.getD "", ""⟩,
      "" ++ d0.fnArgs.getD "" ++ joinFrags (fragsOf pre), [], 0 + 1, cm0, anon0,
      false, none, none, none, false⟩ with hSF1
  have e1 : runMain E (c0 :: (pre ++ fin :: post)) sA
      = runMain E (pre ++ fin :: post) (toolFragStep sA d0) :=
    runMain_cons_frag E c0 _ sA d0 hc0
  have e2 : toolFragStep sA d0 = { sA with collecting := true, tcd := some ⟨d0.id.getD "", d0.ctype.getD "", d0.fnName.getD "", ""⟩, accArgs := sA.accArgs ++ d0.fnArgs.getD "" } :=
    toolFragStep_start sA d0 rfl
  have e3 := preFrags E pre (fin :: post) { sA with collecting := true, tcd := some ⟨d0.id.getD "", d0.ctype.getD "", d0.fnName.getD "", ""⟩, accArgs := sA.accArgs ++ d0.fnArgs.getD "" } hfrag rfl
  have e4 : runMain E (fin :: post) SF1 = toolBranch E SF1 :=
    runMain_cons_fin E fin post SF1 hfin1 ⟨rfl, hfin2⟩
  have hstep : runMain E (c0 :: (pre ++ fin :: post)) sA = toolBranch E SF1 := by
    rw [e1, e2, e3]
    exact e4
  rw [hstep]
  have hchar := toolBranch_char E SF1 hO hfe
  have hbrk : (toolBranch E SF1).brk = true := by rw [hchar]
  have hcond : ¬((toolBranch E SF1).err = none ∧ (toolBranch E SF1).brk = false) := by
    simp [hbrk]
  rw [if_neg hcond]
  have herr : (toolBranch E SF1).err = none := by
    rw [hchar, saveRespErr]
  have hcoll : (toolBranch E SF1).collecting = true := by
    rw [hchar]
    show (saveResp E _).collecting = true
    rw [saveRespColl]
  have hfinrw := finishRelay_open_toolpath E (toolBranch E SF1) herr hcoll
    (hO (toolBranch E SF1).t)
  rw [hfinrw]
  have hacc : d0.fnArgs.getD "" ++ joinFrags (fragsOf pre)
      = joinFrags (fragsOf (c0 :: pre)) := by
    cases hdf : d0.fnArgs <;>
      simp [fragsOf, joinFrags, List.filterMap_cons, hc0, hdf, String.empty_append]
  have hfr2 : (toolBranch E SF1).frames = contentFrames E.followChunks := by
    rw [hchar]
    show (saveResp E _).frames = _
    rw [saveRespFrames]
    simp [hSF1]
  refine ⟨SF1, ?_, rfl, ?_, ?_, ?_, ?_, ?_, ?_⟩
  · show finalTc SF1 = _
    simp only [finalTc, hSF1]
    simp [hacc]
  · show (toolBranch E SF1).fDone = some (finalTc SF1)
    rw [hchar]
    show (saveResp E _).fDone = _
    rw [saveRespFDone]
  · show (toolBranch E SF1).fReq = some (readMsgs E.prompt (toolCm E SF1) E.taskId
        SF1.anon ++ [toolAssistantMsg SF1, toolResultMsg E SF1])
    rw [hchar]
    show (saveResp E _).fReq = _
    rw [saveRespFReq]
  · show SseFrame.done ∈ (toolBranch E SF1).frames ++ [SseFrame.done]
    simp
  · intro m
    show SseFrame.errF m ∉ (toolBranch E SF1).frames ++ [SseFrame.done]
    rw [hfr2]
    exact errF_not_mem_cf_done E.followChunks m
  · rfl
  · exact herr

/-- Claim C9: for every tool invocation completed in a streamed turn, the
argument buffer at the moment the invocation becomes complete equals the
concatenation, in arrival order, of every argument fragment received for it,
and the captured identifier and tool name are those of the first fragment
delta; no other ordering of the fragments is used. -/
theorem toolArgs_concatenated_in_arrival_order (E : RelayEnv)
    (cm0 : ContextManager) (anon0 : List Message) (d0 : ToolCallDelta)
    (c0 fin : Chunk) (pre post : List Chunk) (pErr : Option String)
    (hO : ∀ i, E.closedO i = false) (hmodel : E.model ≠ "")
    (hfe : E.followErr = none)
    (hc0 : c0.toolCallDelta = some d0)
    (hfrag : ∀ x ∈ pre, x.toolCallDelta ≠ none)
    (hfin1 : fin.toolCallDelta = none)
    (hfin2 : fin.finishReason = some "tool_calls") :
    ∃ tc : ToolCallData,
      (handleStreamingRequest E cm0 anon0 (c0 :: (pre ++ fin :: post)) pErr).fDone
        = some tc
      ∧ tc.fnArgs = joinFrags (fragsOf (c0 :: pre))
      ∧ tc.fnName = d0.fnName.getD ""
      ∧ tc.id = d0.id.getD "" := by
  obtain ⟨sF, h1, _, h3, _⟩ :=
    toolScenario E cm0 anon0 d0 c0 fin pre post pErr hO hmodel hfe hc0 hfrag hfin1 hfin2
  refine ⟨finalTc sF, h3, ?_, ?_, ?_⟩ <;> rw [h1]

def bjFrag1 : Chunk :=
  ⟨some ⟨some "call_1", some "function", some "get_weather", some "\x7b\"loc"⟩,
    none, none⟩

def bjFrag2 : Chunk := ⟨some ⟨none, none, none, some "ation\":\""⟩, none, none⟩

def bjFrag3 : Chunk := ⟨some ⟨none, none, none, some "Beijing\"\x7d"⟩, none, none⟩

def finChunk : Chunk := ⟨none, some "tool_calls", none⟩

def bjEnv : RelayEnv :=
  mkEnv (fun _ => false) (fun _ => .error "bad") [⟨none, none, some "Sunny"⟩]
    none (some "s1")

/-- Concrete instantiation of claim C9's theorem: the three fragments of the
spec's example reconstruct the exact argument payload in arrival order. -/
theorem toolArgs_concatenated_in_arrival_order_witness :
    (∃ tc : ToolCallData,
      (handleStreamingRequest bjEnv wcm1 []
        (bjFrag1 :: ([bjFrag2, bjFrag3] ++ finChunk :: [])) none).fDone = some tc
      ∧ tc.fnArgs = joinFrags (fragsOf (bjFrag1 :: [bjFrag2, bjFrag3]))
      ∧ tc.fnName = (⟨some "call_1", some "function", some "get_weather",
          some "\x7b\"loc"⟩ : ToolCallDelta).fnName.getD ""
      ∧ tc.id = (⟨some "call_1", some "function", some "get_weather",
          some "\x7b\"loc"⟩ : ToolCallDelta).id.getD "")
    ∧ joinFrags (fragsOf (bjFrag1 :: [bjFrag2, bjFrag3]))
        = "\x7b\"location\":\"Beijing\"\x7d" :=
  ⟨toolArgs_concatenated_in_arrival_order bjEnv wcm1 []
      ⟨some "call_1", some "function", some "get_weather", some "\x7b\"loc"⟩
      bjFrag1 finChunk [bjFrag2, bjFrag3] [] none
      (fun _ => rfl) (by decide) rfl rfl (by decide) rfl rfl,
   by decide⟩

/-- Claim C6: a tool name with no registered handler yields a result payload
carrying the explicit not-implemented marker; an argument buffer that fails
to parse yields a result payload carrying the parse error text; in both
cases a result payload is produced, the continuation call proceeds with it
(the continuation request carries the tool-result message with the
serialized payload) and the turn is not aborted (the sentinel is sent and no
error frame is emitted). -/
theorem toolCall_error_payloads_and_continuation (E : RelayEnv)
    (cm0 : ContextManager) (anon0 : List Message) (d0 : ToolCallDelta)
    (c0 fin : Chunk) (pre post : List Chunk) (pErr : Option String)
    (hO : ∀ i, E.closedO i = false) (hmodel : E.model ≠ "")
    (hfe : E.followErr = none)
    (hc0 : c0.toolCallDelta = some d0)
    (hfrag : ∀ x ∈ pre, x.toolCallDelta ≠ none)
    (hfin1 : fin.toolCallDelta = none)
    (hfin2 : fin.finishReason = some "tool_calls") :
    (∀ (parse : String → Except String WeatherArgs)
        (wapi : WeatherArgs → WeatherData) (nm args : String), nm ≠ "get_weather" →
        handleFunctionCall parse wapi nm args = .errObj "Function not implemented")
    ∧ (∀ (parse : String → Except String WeatherArgs)
        (wapi : WeatherArgs → WeatherData) (args e : String),
        parse args = .error e →
        handleFunctionCall parse wapi "get_weather" args
          = .errObj ("Error parsing arguments: " ++ e))
    ∧ (∃ sF : RelaySt,
        (handleStreamingRequest E cm0 anon0 (c0 :: (pre ++ fin :: post)) pErr).fReq
          = some (readMsgs E.prompt (toolCm E sF) E.taskId sF.anon
              ++ [toolAssistantMsg sF, toolResultMsg E sF])
        ∧ toolResultMsg E sF
            = ⟨"tool", some (E.stringifyF (handleFunctionCall E.parse E.weatherApi
                (finalTc sF).fnName (finalTc sF).fnArgs)), [], some (finalTc sF).id⟩
        ∧ SseFrame.done ∈
            (handleStreamingRequest E cm0 anon0 (c0 :: (pre ++ fin :: post)) pErr).frames
        ∧ (∀ m, SseFrame.errF m ∉
            (handleStreamingRequest E cm0 anon0 (c0 :: (pre ++ fin :: post)) pErr).frames)
        ∧ (handleStreamingRequest E cm0 anon0 (c0 :: (pre ++ fin :: post)) pErr).ended
            = true) := by
  refine ⟨?_, ?_, ?_⟩
  · intro parse wapi nm args h
    simp [handleFunctionCall, h]
  · intro parse wapi args e hparse
    simp [handleFunctionCall, hparse]
  · obtain ⟨sF, _, _, _, h4, h5, h6, h7, _⟩ :=
      toolScenario E cm0 anon0 d0 c0 fin pre post pErr hO hmodel hfe hc0 hfrag
        hfin1 hfin2
    exact ⟨sF, h4, rfl, h5, h6, h7⟩

/-- Concrete instantiation of claim C6's theorem. -/
theorem toolCall_error_payloads_and_continuation_witness :
    handleFunctionCall (fun _ => .error "bad") (fun _ => ⟨"wx"⟩) "search_web" "x"
        = .errObj "Function not implemented"
    ∧ handleFunctionCall (fun _ => .error "bad") (fun _ => ⟨"wx"⟩) "get_weather" "oops"
        = .errObj ("Error parsing arguments: " ++ "bad")
    ∧ (∃ sF : RelaySt,
        (handleStreamingRequest bjEnv wcm1 []
          (bjFrag1 :: ([bjFrag2, bjFrag3] ++ finChunk :: [])) none).fReq
          = some (readMsgs bjEnv.prompt (toolCm bjEnv sF) bjEnv.taskId sF.anon
              ++ [toolAssistantMsg sF, toolResultMsg bjEnv sF])
        ∧ toolResultMsg bjEnv sF
            = ⟨"tool", some (bjEnv.stringifyF (handleFunctionCall bjEnv.parse
                bjEnv.weatherApi (finalTc sF).fnName (finalTc sF).fnArgs)), [],
                some (finalTc sF).id⟩
        ∧ SseFrame.done ∈
            (handleStreamingRequest bjEnv wcm1 []
              (bjFrag1 :: ([bjFrag2, bjFrag3] ++ finChunk :: [])) none).frames
        ∧ (∀ m, SseFrame.errF m ∉
            (handleStreamingRequest bjEnv wcm1 []
              (bjFrag1 :: ([bjFrag2, bjFrag3] ++ finChunk :: [])) none).frames)
        ∧ (handleStreamingRequest bjEnv wcm1 []
            (bjFrag1 :: ([bjFrag2, bjFrag3] ++ finChunk :: [])) none).ended = true) :=
  have h := toolCall_error_payloads_and_continuation bjEnv wcm1 []
    ⟨some "call_1", some "function", some "get_weather", some "\x7b\"loc"⟩
    bjFrag1 finChunk [bjFrag2, bjFrag3] [] none
    (fun _ => rfl) (by decide) rfl rfl (by decide) rfl rfl
  ⟨h.1 (fun _ => .error "bad") (fun _ => ⟨"wx"⟩) "search_web" "x" (by decide),
   h.2.1 (fun _ => .error "bad") (fun _ => ⟨"wx"⟩) "oops" "bad" rfl,
   h.2.2⟩

/- Claim C3 concerns the executed-to-idle transition of the tool state
machine.  The two messages are appended to the session in order, and the
continuation deltas are forwarded; but when a session identifier is present
the continuation request is built by spreading `contextData.messages` —
which is aliased with the session history that the two `addMessage` calls
just extended — and then appending the same two messages again, so the
assistant tool-call message and the tool-result message appear twice in the
continuation request.  The evaluation below exhibits this at the README's
own usage shape (an identified session asking for the weather). -/

def parseBj : String → Except String WeatherArgs := fun _ => .ok ⟨"Beijing", none⟩

def dupEnv : RelayEnv :=
  mkEnv (fun _ => false) parseBj [⟨none, none, some "Sunny"⟩] none (some "s1")

def wcm2 : ContextManager :=
  ⟨fun k => if k = "s1" then some ⟨[wSys, wUser "hi"], 0, 0⟩ else none⟩

def fragC : Chunk :=
  ⟨some ⟨some "call_1", some "function", some "get_weather", some "A1"⟩, none, none⟩

def tcC : ToolCallData := ⟨"call_1", "function", "get_weather", "A1"⟩

def aMsgC : Message := ⟨"assistant", none, [tcC], none⟩

def tMsgC : Message := ⟨"tool", some "wx", [], some "call_1"⟩

/-- Claim C3 (code bug): evaluating the relay at an identified session with
a single get_weather invocation shows the continuation request carrying the
assistant tool-call message and the tool-result message twice — once from
the aliased session history extended by the two appends, once from the
explicit spread — where the claim (and spec section 4.4) require the
original history plus both new messages exactly once.  The session history
itself receives the two messages in the claimed order, followed by the
continuation text. -/
theorem toolCall_continuation_duplicates_messages :
    (handleStreamingRequest dupEnv wcm2 [] [fragC, finChunk] none).fReq
      = some [wSys, wUser "hi", aMsgC, tMsgC, aMsgC, tMsgC]
    ∧ ((handleStreamingRequest dupEnv wcm2 [] [fragC, finChunk] none).cm.contexts
        "s1").map ChatContext.messages
      = some [wSys, wUser "hi", aMsgC, tMsgC, ⟨"assistant", some "Sunny", [], none⟩]
    ∧ (handleStreamingRequest dupEnv wcm2 [] [fragC, finChunk] none).frames
      = [SseFrame.data ⟨none, none, some "Sunny"⟩, SseFrame.done] := by
  refine ⟨by decide, by decide, by decide⟩
